import Mathlib

/-!
Verification of the go-sqlite-bench core algorithms: the batched
bulk-insert engine, shard/chunk partitioning, join flattening with
deduplication, and the WAL worker protocol, shallowly embedded from the
Go source (`app/sqldb.go`, `app/app.go`).
-/

namespace SqliteBench

/-- Signed 64-bit wrap-around, used to model Go `int64` storage. -/
def wrap64 (x : Int) : Int := (x + 2 ^ 63) % 2 ^ 64 - 2 ^ 63

/-- Modelled from the spec: `BindTime` is not under `src/`; the spec says a
timestamp is "bound to storage as a signed 64-bit integer count of time units
since a fixed epoch".  Timestamps are modelled as `Int` counts of the chosen
unit (nanoseconds) since the epoch, and binding stores that count as a signed
64-bit integer. -/
def BindTime (t : Int) : Int := wrap64 t

/-- Modelled from the spec: `UnbindTime` is not under `src/`; the inverse
transform of `BindTime`, reading the stored signed 64-bit count back as a
timestamp. -/
def UnbindTime (n : Int) : Int := n

/-- Row model (from the spec's data model; the Go `User` struct is not under
`src/` but its fields are fixed by the `NewUser` call sites in `app.go`).
`created` is a timestamp modelled as nanoseconds since the epoch. -/
structure User where
  id : Int
  created : Int
  email : String
  active : Bool
  deriving DecidableEq, Repr

structure Article where
  id : Int
  created : Int
  userId : Int
  text : String
  deriving DecidableEq, Repr

structure Comment where
  id : Int
  created : Int
  articleId : Int
  text : String
  deriving DecidableEq, Repr

/-- The batch decomposition performed by the loop of `BulkInsert`
(`sqldb.go` lines 36-57): while at least 100 rows remain take 100, else
while at least 10 remain take 10, else take 1 (the loop runs while the
remaining length is positive). -/
def bulkBatches {α : Type} (rows : List α) : List (List α) :=
  if rows.length ≥ 100 then rows.take 100 :: bulkBatches (rows.drop 100)
  else if rows.length ≥ 10 then rows.take 10 :: bulkBatches (rows.drop 10)
  else if rows.length ≥ 1 then rows.take 1 :: bulkBatches (rows.drop 1)
  else []
  termination_by rows.length
  decreasing_by
    all_goals simp only [List.length_drop]
    all_goals omega

/-- The list of batch sizes produced for `n` input rows. -/
def batchSizes (n : Nat) : List Nat :=
  if n ≥ 100 then 100 :: batchSizes (n - 100)
  else if n ≥ 10 then 10 :: batchSizes (n - 10)
  else if n ≥ 1 then 1 :: batchSizes (n - 1)
  else []
  termination_by n
  decreasing_by
    all_goals omega

theorem bulkBatches_map_length {α : Type} (rows : List α) :
    (bulkBatches rows).map List.length = batchSizes rows.length := by
  generalize h : rows.length = n
  induction n using Nat.strong_induction_on generalizing rows with
  | _ n ih =>
    rw [bulkBatches, batchSizes]
    by_cases h100 : n ≥ 100
    · rw [if_pos (show rows.length ≥ 100 by omega), if_pos h100]
      simp only [List.map_cons, List.length_take]
      rw [ih (n - 100) (by omega) _ (by simp [h])]
      congr 1
      omega
    · by_cases h10 : n ≥ 10
      · rw [if_neg (show ¬rows.length ≥ 100 by omega), if_neg h100,
          if_pos (show rows.length ≥ 10 by omega), if_pos h10]
        simp only [List.map_cons, List.length_take]
        rw [ih (n - 10) (by omega) _ (by simp [h])]
        congr 1
        omega
      · by_cases h1 : n ≥ 1
        · rw [if_neg (show ¬rows.length ≥ 100 by omega), if_neg h100,
            if_neg (show ¬rows.length ≥ 10 by omega), if_neg h10,
            if_pos (show rows.length ≥ 1 by omega), if_pos h1]
          simp only [List.map_cons, List.length_take]
          rw [ih (n - 1) (by omega) _ (by simp [h])]
          congr 1
          omega
        · rw [if_neg (show ¬rows.length ≥ 100 by omega), if_neg h100,
            if_neg (show ¬rows.length ≥ 10 by omega), if_neg h10,
            if_neg (show ¬rows.length ≥ 1 by omega), if_neg h1]
          simp

theorem bulkBatches_flatten {α : Type} (rows : List α) :
    (bulkBatches rows).flatten = rows := by
  generalize h : rows.length = n
  induction n using Nat.strong_induction_on generalizing rows with
  | _ n ih =>
    rw [bulkBatches]
    by_cases h100 : n ≥ 100
    · rw [if_pos (show rows.length ≥ 100 by omega)]
      rw [List.flatten_cons, ih (n - 100) (by omega) _ (by simp [h])]
      exact List.take_append_drop 100 rows
    · by_cases h10 : n ≥ 10
      · rw [if_neg (show ¬rows.length ≥ 100 by omega),
          if_pos (show rows.length ≥ 10 by omega)]
        rw [List.flatten_cons, ih (n - 10) (by omega) _ (by simp [h])]
        exact List.take_append_drop 10 rows
      · by_cases h1 : n ≥ 1
        · rw [if_neg (show ¬rows.length ≥ 100 by omega),
            if_neg (show ¬rows.length ≥ 10 by omega),
            if_pos (show rows.length ≥ 1 by omega)]
          rw [List.flatten_cons, ih (n - 1) (by omega) _ (by simp [h])]
          exact List.take_append_drop 1 rows
        · rw [if_neg (show ¬rows.length ≥ 100 by omega),
            if_neg (show ¬rows.length ≥ 10 by omega),
            if_neg (show ¬rows.length ≥ 1 by omega)]
          have : rows.length = 0 := by omega
          simp [List.length_eq_zero.mp this]

theorem batchSizes_eq (n : Nat) :
    batchSizes n =
      List.replicate (n / 100) 100 ++ List.replicate (n % 100 / 10) 10 ++
        List.replicate (n % 10) 1 := by
  induction n using Nat.strong_induction_on with
  | _ n ih =>
    rw [batchSizes]
    by_cases h100 : n ≥ 100
    · rw [if_pos h100, ih (n - 100) (by omega)]
      have e1 : (n - 100) / 100 = n / 100 - 1 := by omega
      have e2 : (n - 100) % 100 = n % 100 := by omega
      have e3 : (n - 100) % 10 = n % 10 := by omega
      have e4 : n / 100 = (n / 100 - 1) + 1 := by omega
      rw [e1, e2, e3, e4, List.replicate_succ]
      simp
    · by_cases h10 : n ≥ 10
      · rw [if_neg h100, if_pos h10, ih (n - 10) (by omega)]
        have e1 : (n - 10) / 100 = 0 := by omega
        have e0 : n / 100 = 0 := by omega
        have e2 : (n - 10) % 100 / 10 = n % 100 / 10 - 1 := by omega
        have e3 : (n - 10) % 10 = n % 10 := by omega
        have e4 : n % 100 / 10 = (n % 100 / 10 - 1) + 1 := by omega
        rw [e1, e0, e2, e3, e4, List.replicate_succ]
        simp
      · by_cases h1 : n ≥ 1
        · rw [if_neg h100, if_neg h10, if_pos h1, ih (n - 1) (by omega)]
          have e1 : (n - 1) / 100 = 0 := by omega
          have e0 : n / 100 = 0 := by omega
          have e2 : (n - 1) % 100 / 10 = 0 := by omega
          have e2b : n % 100 / 10 = 0 := by omega
          have e3 : (n - 1) % 10 = n % 10 - 1 := by omega
          have e4 : n % 10 = (n % 10 - 1) + 1 := by omega
          rw [e1, e0, e2, e2b, e3, e4, List.replicate_succ]
          simp
        · have : n = 0 := by omega
          subst this
          simp [batchSizes]

theorem batchSizes_mem (n : Nat) (s : Nat) (h : s ∈ batchSizes n) :
    s = 100 ∨ s = 10 ∨ s = 1 := by
  rw [batchSizes_eq] at h
  simp only [List.mem_append, List.mem_replicate] at h
  omega

/-- C1: for every input sequence the bulk-insert engine consumes contiguous
batches from the front, of exactly 100 while at least 100 rows remain, then
exactly 10 while at least 10 remain, then 1; the concatenation of the batches
is the input (so the sizes sum to the input length and the batches are
contiguous and in input order), and every batch has exactly its nominal size
(so in particular at most one batch — here none — is smaller than its nominal
size). -/
theorem C1_bulk_batching {α : Type} (rows : List α) :
    (bulkBatches rows).flatten = rows ∧
    (bulkBatches rows).map List.length =
      List.replicate (rows.length / 100) 100 ++
        List.replicate (rows.length % 100 / 10) 10 ++
        List.replicate (rows.length % 10) 1 ∧
    ((bulkBatches rows).map List.length).sum = rows.length ∧
    ∀ b ∈ bulkBatches rows, b.length = 100 ∨ b.length = 10 ∨ b.length = 1 := by
  refine ⟨bulkBatches_flatten rows, ?_, ?_, ?_⟩
  · rw [bulkBatches_map_length, batchSizes_eq]
  · have := congrArg List.length (bulkBatches_flatten rows)
    rwa [List.length_flatten] at this
  · intro b hb
    apply batchSizes_mem rows.length
    rw [← bulkBatches_map_length]
    exact List.mem_map_of_mem List.length hb

/-- SQL parameter values bound by the insert paths. -/
inductive SqlValue
  | int (i : Int)
  | str (s : String)
  | bool (b : Bool)
  deriving DecidableEq, Repr

/-- The per-row values function passed by `InsertUsersBulk` (sqldb.go
101-106): `u.Id, BindTime(u.Created), &u.Email, u.Active` (the email is
passed by pointer; the driver binds the pointed-to string value). -/
def bulkUserValues (u : User) : List SqlValue :=
  [.int u.id, .int (BindTime u.created), .str u.email, .bool u.active]

/-- The per-row bound arguments of the row-by-row `InsertUsers` (sqldb.go
108-121): `u.Id, BindTime(u.Created), u.Email, u.Active`. -/
def rowUserValues (u : User) : List SqlValue :=
  [.int u.id, .int (BindTime u.created), .str u.email, .bool u.active]

/-- The complete bound-value sequence of one `BulkInsert` call (sqldb.go
58-62): for each batch in order, the argument list is the concatenation of
`values(&batch[i])` over the batch, and the batches execute in order. -/
def bulkBoundValues (users : List User) : List SqlValue :=
  ((bulkBatches users).map fun batch => (batch.map bulkUserValues).flatten).flatten

/-- The complete bound-value sequence of one `InsertUsers` call (sqldb.go
113-116): one `Exec` per row, in input order. -/
def rowBoundValues (users : List User) : List SqlValue :=
  (users.map rowUserValues).flatten

theorem flatten_map_flatten {α β : Type} (f : α → List β) (L : List (List α)) :
    (L.map fun b => (b.map f).flatten).flatten = ((L.flatten).map f).flatten := by
  induction L with
  | nil => simp
  | cons a L ih => simp [List.map_append, List.flatten_append, ih]

/-- C3: bulk insert and row-by-row insert bind exactly the same per-row field
values (id, bound timestamp, email, active) in the same row order, so reading
the table back ordered by identifier after either insertion yields identical
result sets. -/
theorem C3_bulk_matches_row_by_row (users : List User) :
    bulkBoundValues users = rowBoundValues users ∧
    ∀ u : User, bulkUserValues u = rowUserValues u := by
  constructor
  · rw [bulkBoundValues, flatten_map_flatten, bulkBatches_flatten, rowBoundValues]
    rfl
  · intro u
    rfl

/-- `repeatJoin` (sqldb.go 76-86): writes `str` once per loop iteration,
preceded by `sep` for every iteration after the first. -/
def repeatJoin (str : String) (n : Nat) (sep : String) : String :=
  (List.range n).foldl (fun sb i => if i > 0 then sb ++ sep ++ str else sb ++ str) ""

/-- `str` repeated `n` times joined with `sep`, written as the spec describes
the prepared statement's value-tuple clause. -/
def repeatedClause (str sep : String) : Nat → String
  | 0 => ""
  | 1 => str
  | n + 2 => repeatedClause str sep (n + 1) ++ sep ++ str

theorem repeatJoin_eq_repeatedClause (str sep : String) (n : Nat) :
    repeatJoin str n sep = repeatedClause str sep n := by
  induction n with
  | zero => rfl
  | succ m ih =>
    rw [repeatJoin, List.range_succ, List.foldl_append, ← repeatJoin]
    match m with
    | 0 => simp [repeatJoin, repeatedClause]
    | k + 1 => simp [ih, repeatedClause]

/-- The SQL value-tuple clause prepared for a batch size (sqldb.go 42, 48,
54): `repeatJoin(cols, 100, ",")` for `st100`, `repeatJoin(cols, 10, ",")`
for `st10`, and `cols` itself for `st1`. -/
def preparedClause (cols : String) (size : Nat) : String :=
  if size = 1 then cols else repeatJoin cols size ","

/-- Observable statement-lifecycle events of one `BulkInsert` call. -/
inductive BulkEvent
  | beginTx
  | prepare (size : Nat)
  | execBatch (size : Nat)
  | closeStmt (size : Nat)
  | commit
  deriving DecidableEq, Repr

/-- The events emitted by the loop of `BulkInsert` (sqldb.go 36-63).  The
three booleans model whether `st1`, `st10`, `st100` are non-nil: a statement
for a size is prepared only when its variable is still nil (lines 41-43,
47-49, 53-55), and every batch ends in one `stmt.Exec` (line 62). -/
def bulkLoopEvents {α : Type} (rows : List α) (st1 st10 st100 : Bool) :
    List BulkEvent :=
  if rows.length ≥ 100 then
    (if st100 then [] else [.prepare 100]) ++ [.execBatch 100] ++
      bulkLoopEvents (rows.drop 100) st1 st10 true
  else if rows.length ≥ 10 then
    (if st10 then [] else [.prepare 10]) ++ [.execBatch 10] ++
      bulkLoopEvents (rows.drop 10) st1 true st100
  else if rows.length ≥ 1 then
    (if st1 then [] else [.prepare 1]) ++ [.execBatch 1] ++
      bulkLoopEvents (rows.drop 1) true st10 st100
  else []
  termination_by rows.length
  decreasing_by
    all_goals simp only [List.length_drop]
    all_goals omega

/-- The full event trace of one `BulkInsert` call (sqldb.go 32-74): open the
transaction, run the batching loop, close each statement that was prepared —
`st1`, then `st10`, then `st100` (lines 64-72; a statement variable is
non-nil exactly when a batch of its size was consumed) — and commit. -/
def bulkEvents {α : Type} (rows : List α) : List BulkEvent :=
  let sizes := (bulkBatches rows).map List.length
  [.beginTx] ++ bulkLoopEvents rows false false false ++
    (if 1 ∈ sizes then [.closeStmt 1] else []) ++
    (if 10 ∈ sizes then [.closeStmt 10] else []) ++
    (if 100 ∈ sizes then [.closeStmt 100] else []) ++
    [.commit]

/-- C8: a bulk-insert call on exactly one row prepares and uses only the
size-1 statement (begin, prepare size 1, execute one size-1 batch, close the
size-1 statement, commit); a call on zero rows executes and prepares no
statement but still opens and commits a transaction. -/
theorem C8_single_row_and_empty {α : Type} (r : α) :
    bulkEvents [r] =
      [.beginTx, .prepare 1, .execBatch 1, .closeStmt 1, .commit] ∧
    bulkEvents ([] : List α) = [.beginTx, .commit] := by
  constructor
  · rw [bulkEvents]
    rw [bulkLoopEvents]
    simp only [List.length_cons, List.length_nil]
    norm_num
    rw [bulkLoopEvents]
    simp only [List.length_nil]
    norm_num
    rw [bulkBatches]
    simp only [List.length_cons, List.length_nil]
    norm_num
    rw [bulkBatches]
    simp
  · rw [bulkEvents, bulkLoopEvents, bulkBatches]
    simp

/-- The sizes for which the loop prepared a statement, in order. -/
def prepareSizes (evts : List BulkEvent) : List Nat :=
  evts.filterMap fun e =>
    match e with
    | .prepare s => some s
    | _ => none

theorem count_prepareSizes (evts : List BulkEvent) (s : Nat) :
    (prepareSizes evts).count s = evts.count (.prepare s) := by
  induction evts with
  | nil => rfl
  | cons e evts ih =>
    cases e <;>
      simp [prepareSizes, List.filterMap_cons, List.count_cons, ← ih, prepareSizes]

theorem mem_prepareSizes (evts : List BulkEvent) (s : Nat) :
    s ∈ prepareSizes evts ↔ BulkEvent.prepare s ∈ evts := by
  rw [← List.count_pos_iff, ← List.count_pos_iff, count_prepareSizes]

theorem loop_count_prepare_100 {α : Type} (rows : List α) (st1 st10 st100 : Bool) :
    (bulkLoopEvents rows st1 st10 st100).count (.prepare 100) =
      if st100 = false ∧ rows.length ≥ 100 then 1 else 0 := by
  generalize h : rows.length = n
  induction n using Nat.strong_induction_on generalizing rows st1 st10 st100 with
  | _ n ih =>
    rw [bulkLoopEvents]
    by_cases h100 : n ≥ 100
    · rw [if_pos (show rows.length ≥ 100 by omega)]
      rw [List.count_append, List.count_append,
        ih (n - 100) (by omega) _ st1 st10 true (by simp [h])]
      cases st100 <;> simp [h, h100]
    · by_cases h10 : n ≥ 10
      · rw [if_neg (show ¬rows.length ≥ 100 by omega),
          if_pos (show rows.length ≥ 10 by omega)]
        rw [List.count_append, List.count_append,
          ih (n - 10) (by omega) _ st1 true st100 (by simp [h])]
        rw [if_neg (show ¬(st100 = false ∧ n - 10 ≥ 100) from
              fun hc => absurd hc.2 (by omega)),
          if_neg (show ¬(st100 = false ∧ n ≥ 100) from
              fun hc => absurd hc.2 (by omega))]
        cases st10 <;> simp
      · by_cases h1 : n ≥ 1
        · rw [if_neg (show ¬rows.length ≥ 100 by omega),
            if_neg (show ¬rows.length ≥ 10 by omega),
            if_pos (show rows.length ≥ 1 by omega)]
          rw [List.count_append, List.count_append,
            ih (n - 1) (by omega) _ true st10 st100 (by simp [h])]
          rw [if_neg (show ¬(st100 = false ∧ n - 1 ≥ 100) from
                fun hc => absurd hc.2 (by omega)),
            if_neg (show ¬(st100 = false ∧ n ≥ 100) from
                fun hc => absurd hc.2 (by omega))]
          cases st1 <;> simp
        · rw [if_neg (show ¬rows.length ≥ 100 by omega),
            if_neg (show ¬rows.length ≥ 10 by omega),
            if_neg (show ¬rows.length ≥ 1 by omega)]
          rw [List.count_nil,
            if_neg (show ¬(st100 = false ∧ n ≥ 100) from
                fun hc => absurd hc.2 (by omega))]

theorem loop_count_prepare_10 {α : Type} (rows : List α) (st1 st10 st100 : Bool) :
    (bulkLoopEvents rows st1 st10 st100).count (.prepare 10) =
      if st10 = false ∧ rows.length % 100 ≥ 10 then 1 else 0 := by
  generalize h : rows.length = n
  induction n using Nat.strong_induction_on generalizing rows st1 st10 st100 with
  | _ n ih =>
    rw [bulkLoopEvents]
    by_cases h100 : n ≥ 100
    · rw [if_pos (show rows.length ≥ 100 by omega)]
      rw [List.count_append, List.count_append,
        ih (n - 100) (by omega) _ st1 st10 true (by simp [h])]
      rw [show (n - 100) % 100 = n % 100 by omega]
      cases st100 <;> simp
    · by_cases h10 : n ≥ 10
      · rw [if_neg (show ¬rows.length ≥ 100 by omega),
          if_pos (show rows.length ≥ 10 by omega)]
        rw [List.count_append, List.count_append,
          ih (n - 10) (by omega) _ st1 true st100 (by simp [h])]
        rw [if_neg (show ¬(true = false ∧ (n - 10) % 100 ≥ 10) from
              fun hc => absurd hc.1 (by simp)),
          show n % 100 = n by omega]
        cases st10 <;> simp [show (10:Nat) ≤ n from by omega]
      · by_cases h1 : n ≥ 1
        · rw [if_neg (show ¬rows.length ≥ 100 by omega),
            if_neg (show ¬rows.length ≥ 10 by omega),
            if_pos (show rows.length ≥ 1 by omega)]
          rw [List.count_append, List.count_append,
            ih (n - 1) (by omega) _ true st10 st100 (by simp [h])]
          rw [if_neg (show ¬(st10 = false ∧ (n - 1) % 100 ≥ 10) from
                fun hc => absurd hc.2 (by omega)),
            if_neg (show ¬(st10 = false ∧ n % 100 ≥ 10) from
                fun hc => absurd hc.2 (by omega))]
          cases st1 <;> simp
        · rw [if_neg (show ¬rows.length ≥ 100 by omega),
            if_neg (show ¬rows.length ≥ 10 by omega),
            if_neg (show ¬rows.length ≥ 1 by omega)]
          rw [List.count_nil,
            if_neg (show ¬(st10 = false ∧ n % 100 ≥ 10) from
                fun hc => absurd hc.2 (by omega))]

theorem loop_count_prepare_1 {α : Type} (rows : List α) (st1 st10 st100 : Bool) :
    (bulkLoopEvents rows st1 st10 st100).count (.prepare 1) =
      if st1 = false ∧ rows.length % 10 ≥ 1 then 1 else 0 := by
  generalize h : rows.length = n
  induction n using Nat.strong_induction_on generalizing rows st1 st10 st100 with
  | _ n ih =>
    rw [bulkLoopEvents]
    by_cases h100 : n ≥ 100
    · rw [if_pos (show rows.length ≥ 100 by omega)]
      rw [List.count_append, List.count_append,
        ih (n - 100) (by omega) _ st1 st10 true (by simp [h])]
      rw [show (n - 100) % 10 = n % 10 by omega]
      cases st100 <;> simp
    · by_cases h10 : n ≥ 10
      · rw [if_neg (show ¬rows.length ≥ 100 by omega),
          if_pos (show rows.length ≥ 10 by omega)]
        rw [List.count_append, List.count_append,
          ih (n - 10) (by omega) _ st1 true st100 (by simp [h])]
        rw [show (n - 10) % 10 = n % 10 by omega]
        cases st10 <;> simp
      · by_cases h1 : n ≥ 1
        · rw [if_neg (show ¬rows.length ≥ 100 by omega),
            if_neg (show ¬rows.length ≥ 10 by omega),
            if_pos (show rows.length ≥ 1 by omega)]
          rw [List.count_append, List.count_append,
            ih (n - 1) (by omega) _ true st10 st100 (by simp [h])]
          rw [if_neg (show ¬(true = false ∧ (n - 1) % 10 ≥ 1) from
                fun hc => absurd hc.1 (by simp)),
            show n % 10 = n by omega]
          cases st1 <;> simp [show (1:Nat) ≤ n from by omega]
        · rw [if_neg (show ¬rows.length ≥ 100 by omega),
            if_neg (show ¬rows.length ≥ 10 by omega),
            if_neg (show ¬rows.length ≥ 1 by omega)]
          rw [List.count_nil,
            if_neg (show ¬(st1 = false ∧ n % 10 ≥ 1) from
                fun hc => absurd hc.2 (by omega))]

theorem loop_count_prepare_other {α : Type} (rows : List α) (st1 st10 st100 : Bool)
    (s : Nat) (hs1 : s ≠ 1) (hs10 : s ≠ 10) (hs100 : s ≠ 100) :
    (bulkLoopEvents rows st1 st10 st100).count (.prepare s) = 0 := by
  generalize h : rows.length = n
  induction n using Nat.strong_induction_on generalizing rows st1 st10 st100 with
  | _ n ih =>
    rw [bulkLoopEvents]
    by_cases h100 : n ≥ 100
    · rw [if_pos (show rows.length ≥ 100 by omega)]
      rw [List.count_append, List.count_append,
        ih (n - 100) (by omega) _ st1 st10 true (by simp [h])]
      cases st100 <;> simp [List.count_cons, List.count_nil, beq_iff_eq, Ne.symm hs100]
    · by_cases h10 : n ≥ 10
      · rw [if_neg (show ¬rows.length ≥ 100 by omega),
          if_pos (show rows.length ≥ 10 by omega)]
        rw [List.count_append, List.count_append,
          ih (n - 10) (by omega) _ st1 true st100 (by simp [h])]
        cases st10 <;> simp [List.count_cons, List.count_nil, beq_iff_eq, Ne.symm hs10]
      · by_cases h1 : n ≥ 1
        · rw [if_neg (show ¬rows.length ≥ 100 by omega),
            if_neg (show ¬rows.length ≥ 10 by omega),
            if_pos (show rows.length ≥ 1 by omega)]
          rw [List.count_append, List.count_append,
            ih (n - 1) (by omega) _ true st10 st100 (by simp [h])]
          cases st1 <;> simp [List.count_cons, List.count_nil, beq_iff_eq, Ne.symm hs1]
        · rw [if_neg (show ¬rows.length ≥ 100 by omega),
            if_neg (show ¬rows.length ≥ 10 by omega),
            if_neg (show ¬rows.length ≥ 1 by omega)]
          simp

theorem loop_count_exec {α : Type} (rows : List α) (st1 st10 st100 : Bool)
    (s : Nat) :
    (bulkLoopEvents rows st1 st10 st100).count (.execBatch s) =
      (batchSizes rows.length).count s := by
  generalize h : rows.length = n
  induction n using Nat.strong_induction_on generalizing rows st1 st10 st100 with
  | _ n ih =>
    rw [bulkLoopEvents, batchSizes]
    by_cases h100 : n ≥ 100
    · rw [if_pos (show rows.length ≥ 100 by omega), if_pos h100]
      rw [List.count_append, List.count_append,
        ih (n - 100) (by omega) _ st1 st10 true (by simp [h])]
      cases st100 <;> simp [List.count_cons] <;>
        by_cases hs : 100 = s <;> simp [hs] <;> omega
    · by_cases h10 : n ≥ 10
      · rw [if_neg (show ¬rows.length ≥ 100 by omega), if_neg h100,
          if_pos (show rows.length ≥ 10 by omega), if_pos h10]
        rw [List.count_append, List.count_append,
          ih (n - 10) (by omega) _ st1 true st100 (by simp [h])]
        cases st10 <;> simp [List.count_cons] <;>
          by_cases hs : 10 = s <;> simp [hs] <;> omega
      · by_cases h1 : n ≥ 1
        · rw [if_neg (show ¬rows.length ≥ 100 by omega), if_neg h100,
            if_neg (show ¬rows.length ≥ 10 by omega), if_neg h10,
            if_pos (show rows.length ≥ 1 by omega), if_pos h1]
          rw [List.count_append, List.count_append,
            ih (n - 1) (by omega) _ true st10 st100 (by simp [h])]
          cases st1 <;> simp [List.count_cons] <;>
            by_cases hs : 1 = s <;> simp [hs] <;> omega
        · rw [if_neg (show ¬rows.length ≥ 100 by omega), if_neg h100,
            if_neg (show ¬rows.length ≥ 10 by omega), if_neg h10,
            if_neg (show ¬rows.length ≥ 1 by omega), if_neg h1]
          simp

/-- Outcome oracle for the fallible database operations used by one
`BulkInsert` call. -/
structure BulkOps where
  beginTx : Except String Unit
  prepareStmt : Nat → Except String Unit
  execStmt : Nat → Except String Unit
  closeStmt : Nat → Except String Unit
  commit : Except String Unit

/-- Failure semantics of the loop of `BulkInsert` (sqldb.go 36-63): a
`tx.Prepare` failure panics through `try` (lines 42, 48, 54), but on line 62
`stmt.Exec(args...)` discards both of its results, so an execute failure is
ignored and the loop continues. -/
def bulkLoopRun {α : Type} (ops : BulkOps) (rows : List α)
    (st1 st10 st100 : Bool) : Except String Unit :=
  if rows.length ≥ 100 then
    match (if st100 then Except.ok () else ops.prepareStmt 100) with
    | .error e => .error e
    | .ok _ =>
      -- sqldb.go line 62: the results of stmt.Exec are discarded
      let _ := ops.execStmt 100
      bulkLoopRun ops (rows.drop 100) st1 st10 true
  else if rows.length ≥ 10 then
    match (if st10 then Except.ok () else ops.prepareStmt 10) with
    | .error e => .error e
    | .ok _ =>
      let _ := ops.execStmt 10
      bulkLoopRun ops (rows.drop 10) st1 true st100
  else if rows.length ≥ 1 then
    match (if st1 then Except.ok () else ops.prepareStmt 1) with
    | .error e => .error e
    | .ok _ =>
      let _ := ops.execStmt 1
      bulkLoopRun ops (rows.drop 1) true st10 st100
  else .ok ()
  termination_by rows.length
  decreasing_by
    all_goals simp only [List.length_drop]
    all_goals omega

/-- Failure semantics of a whole `BulkInsert` call (sqldb.go 32-74): `try`
aborts on a `db.Begin` failure, the loop aborts on prepare failures, then
`try0` aborts on a failure of each `Close` of a statement that was prepared
(`st1`, `st10`, `st100` in that order) and of `tx.Commit`. -/
def bulkRun {α : Type} (ops : BulkOps) (rows : List α) : Except String Unit :=
  match ops.beginTx with
  | .error e => .error e
  | .ok _ =>
    match bulkLoopRun ops rows false false false with
    | .error e => .error e
    | .ok _ =>
      let sizes := (bulkBatches rows).map List.length
      match (if 1 ∈ sizes then ops.closeStmt 1 else .ok ()) with
      | .error e => .error e
      | .ok _ =>
        match (if 10 ∈ sizes then ops.closeStmt 10 else .ok ()) with
        | .error e => .error e
        | .ok _ =>
          match (if 100 ∈ sizes then ops.closeStmt 100 else .ok ()) with
          | .error e => .error e
          | .ok _ => ops.commit

/-- Oracle in which every batch execution fails and every other operation
succeeds. -/
def execFailOps : BulkOps where
  beginTx := .ok ()
  prepareStmt := fun _ => .ok ()
  execStmt := fun _ => .error "exec failed"
  closeStmt := fun _ => .ok ()
  commit := .ok ()

/-- Oracle in which every statement preparation fails. -/
def prepareFailOps : BulkOps where
  beginTx := .ok ()
  prepareStmt := fun _ => .error "prepare failed"
  execStmt := fun _ => .ok ()
  closeStmt := fun _ => .ok ()
  commit := .ok ()

/-- C2 (code bug): on a one-row input whose single batch execution fails,
`BulkInsert` still closes the statement, commits and returns success —
sqldb.go line 62 discards the results of `stmt.Exec`, so a batch-execution
failure is silently ignored, while a prepare failure on the same input does
abort the call. -/
theorem C2_exec_failure_ignored :
    bulkRun execFailOps [()] = Except.ok () ∧
    execFailOps.execStmt 1 = Except.error "exec failed" ∧
    bulkRun prepareFailOps [()] = Except.error "prepare failed" := by
  refine ⟨?_, rfl, ?_⟩ <;>
    · rw [bulkRun, bulkLoopRun]
      simp only [List.length_cons, List.length_nil]
      norm_num
      rw [bulkLoopRun]
      simp [execFailOps, prepareFailOps, bulkBatches]

theorem count_prepare_bulkEvents {α : Type} (rows : List α) (s : Nat) :
    (bulkEvents rows).count (.prepare s) =
      (bulkLoopEvents rows false false false).count (.prepare s) := by
  rw [bulkEvents]
  split_ifs <;> simp [List.count_append, List.count_cons, List.count_nil]

theorem count_exec_bulkEvents {α : Type} (rows : List α) (s : Nat) :
    (bulkEvents rows).count (.execBatch s) =
      (bulkLoopEvents rows false false false).count (.execBatch s) := by
  rw [bulkEvents]
  split_ifs <;> simp [List.count_append, List.count_cons, List.count_nil]

theorem mem_batchSizes_100 (n : Nat) : 100 ∈ batchSizes n ↔ n ≥ 100 := by
  rw [batchSizes_eq]
  simp [List.mem_replicate]
  omega

theorem mem_batchSizes_10 (n : Nat) : 10 ∈ batchSizes n ↔ n % 100 ≥ 10 := by
  rw [batchSizes_eq]
  simp [List.mem_replicate]
  rw [Nat.div_eq_zero_iff (by norm_num)]
  omega

theorem mem_batchSizes_1 (n : Nat) : 1 ∈ batchSizes n ↔ n % 10 ≥ 1 := by
  rw [batchSizes_eq]
  simp [List.mem_replicate]
  omega

theorem count_prepare_le_one {α : Type} (rows : List α) (s : Nat) :
    (bulkEvents rows).count (BulkEvent.prepare s) ≤ 1 := by
  rw [count_prepare_bulkEvents]
  by_cases e1 : s = 1
  · subst e1
    rw [loop_count_prepare_1]
    split_ifs <;> omega
  by_cases e10 : s = 10
  · subst e10
    rw [loop_count_prepare_10]
    split_ifs <;> omega
  by_cases e100 : s = 100
  · subst e100
    rw [loop_count_prepare_100]
    split_ifs <;> omega
  rw [loop_count_prepare_other _ _ _ _ _ e1 e10 e100]
  omega

theorem mem_prepareSizes_bulkEvents {α : Type} (rows : List α) (s : Nat) :
    s ∈ prepareSizes (bulkEvents rows) ↔
      s ∈ (bulkBatches rows).map List.length := by
  rw [mem_prepareSizes, ← List.count_pos_iff, count_prepare_bulkEvents,
    bulkBatches_map_length]
  by_cases e1 : s = 1
  · subst e1
    rw [loop_count_prepare_1, mem_batchSizes_1]
    split_ifs with hc
    · exact ⟨fun _ => hc.2, fun _ => Nat.one_pos⟩
    · constructor
      · omega
      · intro hmem
        exact absurd ⟨rfl, hmem⟩ hc
  by_cases e10 : s = 10
  · subst e10
    rw [loop_count_prepare_10, mem_batchSizes_10]
    split_ifs with hc
    · exact ⟨fun _ => hc.2, fun _ => Nat.one_pos⟩
    · constructor
      · omega
      · intro hmem
        exact absurd ⟨rfl, hmem⟩ hc
  by_cases e100 : s = 100
  · subst e100
    rw [loop_count_prepare_100, mem_batchSizes_100]
    split_ifs with hc
    · exact ⟨fun _ => hc.2, fun _ => Nat.one_pos⟩
    · constructor
      · omega
      · intro hmem
        exact absurd ⟨rfl, hmem⟩ hc
  rw [loop_count_prepare_other _ _ _ _ _ e1 e10 e100]
  constructor
  · omega
  · intro hmem
    rcases batchSizes_mem _ _ hmem with h | h | h <;> omega

/-- C4: within one bulk-insert call, a statement is prepared at most once per
batch size, prepared exactly for the distinct batch sizes that are
encountered, never more than 3 times in total, every batch of a size is
executed with the (single) statement of that size, and the statement prepared
for size `s` has its value-tuple clause repeated `s` times. -/
theorem C4_lazy_statement_cache {α : Type} (cols : String) (rows : List α) :
    (∀ s : Nat, (bulkEvents rows).count (BulkEvent.prepare s) ≤ 1) ∧
    (prepareSizes (bulkEvents rows)).Nodup ∧
    (prepareSizes (bulkEvents rows)).length ≤ 3 ∧
    (∀ s : Nat, s ∈ prepareSizes (bulkEvents rows) ↔
        s ∈ (bulkBatches rows).map List.length) ∧
    (∀ s : Nat, (bulkEvents rows).count (BulkEvent.execBatch s) =
        ((bulkBatches rows).map List.length).count s) ∧
    (∀ s ∈ prepareSizes (bulkEvents rows),
        preparedClause cols s = repeatedClause cols "," s) := by
  have hnodup : (prepareSizes (bulkEvents rows)).Nodup := by
    rw [List.nodup_iff_count_le_one]
    intro s
    rw [count_prepareSizes]
    exact count_prepare_le_one rows s
  have hmem3 : ∀ s ∈ prepareSizes (bulkEvents rows), s = 100 ∨ s = 10 ∨ s = 1 := by
    intro s hs
    rw [mem_prepareSizes_bulkEvents, bulkBatches_map_length] at hs
    exact batchSizes_mem _ _ hs
  refine ⟨count_prepare_le_one rows, hnodup, ?_, mem_prepareSizes_bulkEvents rows,
    ?_, ?_⟩
  · have hsub : prepareSizes (bulkEvents rows) ⊆ [100, 10, 1] := by
      intro s hs
      rcases hmem3 s hs with h | h | h <;> simp [h]
    simpa using (List.subperm_of_subset hnodup hsub).length_le
  · intro s
    rw [count_exec_bulkEvents, loop_count_exec, bulkBatches_map_length]
  · intro s hs
    rcases hmem3 s hs with h | h | h <;> subst h
    · rw [preparedClause, if_neg (by omega), repeatJoin_eq_repeatedClause]
    · rw [preparedClause, if_neg (by omega), repeatJoin_eq_repeatedClause]
    · rw [preparedClause, if_pos rfl]
      rfl

/-- `chunkUsers` (app.go 465-475): `cn := len(u)/n`; chunk `i` is the slice
`u[i*cn:(i+1)*cn]`; if rows are left over (`len(u) > cn*n`), the last chunk
is replaced by `u[(n-1)*cn:]`. -/
def chunkUsers {α : Type} (u : List α) (n : Nat) : List (List α) :=
  let cn := u.length / n
  let cu := (List.range n).map fun i => (u.drop (i * cn)).take cn
  if u.length > cn * n then cu.set (n - 1) (u.drop ((n - 1) * cn)) else cu

theorem flatten_range_chunks {α : Type} (u : List α) (cn : Nat) (m : Nat) :
    ((List.range m).map fun i => (u.drop (i * cn)).take cn).flatten =
      u.take (m * cn) := by
  induction m with
  | zero => simp
  | succ m ih =>
    rw [List.range_succ, List.map_append, List.flatten_append, ih]
    simp only [List.map_cons, List.map_nil, List.flatten_cons, List.flatten_nil,
      List.append_nil]
    rw [show (m + 1) * cn = m * cn + cn by ring, List.take_add]

theorem chunkUsers_eq {α : Type} (u : List α) (k : Nat) (hk : 1 ≤ k) :
    chunkUsers u k =
      ((List.range (k - 1)).map fun i =>
          (u.drop (i * (u.length / k))).take (u.length / k)) ++
        [u.drop ((k - 1) * (u.length / k))] := by
  have hcnk : u.length / k * k ≤ u.length := Nat.div_mul_le_self _ _
  have hrange : List.range k = List.range (k - 1) ++ [k - 1] := by
    obtain ⟨m, rfl⟩ : ∃ m, k = m + 1 := ⟨k - 1, by omega⟩
    simp [List.range_succ]
  rw [chunkUsers]
  split_ifs with hrem
  · rw [hrange, List.map_append, List.set_append]
    have hlen : ((List.range (k - 1)).map fun i =>
        (u.drop (i * (u.length / k))).take (u.length / k)).length = k - 1 := by
      simp
    rw [hlen, if_neg (lt_irrefl (k - 1)), Nat.sub_self]
    simp
  · rw [hrange, List.map_append]
    have hlenu : u.length = u.length / k * k := Nat.le_antisymm (by omega) hcnk
    have hone : (k - 1) * (u.length / k) = u.length / k * k - u.length / k := by
      rw [Nat.sub_mul, one_mul, Nat.mul_comm]
    have hdroplen : (u.drop ((k - 1) * (u.length / k))).length ≤ u.length / k := by
      rw [List.length_drop, hone, ← hlenu, Nat.sub_sub_self (Nat.div_le_self _ _)]
    simp only [List.map_cons, List.map_nil]
    rw [List.take_of_length_le hdroplen]

/-- C5: for every row list and every shard or chunk count `k ≥ 1`, the
partition function returns exactly `k` contiguous sub-slices in input order
whose concatenation is the input (so lengths sum to `n`), all sub-slices but
the last of equal length `n / k`, and the last absorbing the remainder. -/
theorem C5_chunk_partition {α : Type} (u : List α) (k : Nat) (hk : 1 ≤ k) :
    (chunkUsers u k).length = k ∧
    (chunkUsers u k).flatten = u ∧
    (∀ i, i + 1 < k → ((chunkUsers u k).getD i []).length = u.length / k) ∧
    ((chunkUsers u k).getD (k - 1) []).length =
      u.length - (k - 1) * (u.length / k) := by
  have hcnk : u.length / k * k ≤ u.length := Nat.div_mul_le_self _ _
  rw [chunkUsers_eq u k hk]
  have hmaplen : ((List.range (k - 1)).map fun i =>
      (u.drop (i * (u.length / k))).take (u.length / k)).length = k - 1 := by
    simp
  refine ⟨?_, ?_, ?_, ?_⟩
  · simp only [List.length_append, hmaplen, List.length_cons, List.length_nil]
    omega
  · rw [List.flatten_append, flatten_range_chunks]
    simp only [List.flatten_cons, List.flatten_nil, List.append_nil]
    exact List.take_append_drop _ u
  · intro i hi
    have hilt : i < ((List.range (k - 1)).map fun i =>
        (u.drop (i * (u.length / k))).take (u.length / k)).length := by
      rw [hmaplen]
      omega
    rw [List.getD_append _ _ _ i hilt, List.getD_eq_getElem _ _ hilt]
    simp only [List.getElem_map, List.getElem_range, List.length_take,
      List.length_drop]
    have hle : (i + 1) * (u.length / k) ≤ u.length := by
      calc (i + 1) * (u.length / k) ≤ k * (u.length / k) :=
            Nat.mul_le_mul_right _ (by omega)
        _ = u.length / k * k := Nat.mul_comm _ _
        _ ≤ u.length := hcnk
    rw [Nat.succ_mul] at hle
    omega
  · rw [List.getD_append_right _ _ _ _ (le_of_eq hmaplen)]
    rw [hmaplen, Nat.sub_self]
    simp

/-- Witness for C5 at the concrete input `[0,1,2,3,4]` with `k = 2`. -/
theorem C5_chunk_partition_witness :
    1 ≤ 2 ∧
      ((chunkUsers [0, 1, 2, 3, 4] 2).length = 2 ∧
        (chunkUsers [0, 1, 2, 3, 4] 2).flatten = [0, 1, 2, 3, 4] ∧
        (∀ i, i + 1 < 2 →
          ((chunkUsers [0, 1, 2, 3, 4] 2).getD i []).length =
            ([0, 1, 2, 3, 4] : List Nat).length / 2) ∧
        ((chunkUsers [0, 1, 2, 3, 4] 2).getD (2 - 1) []).length =
          ([0, 1, 2, 3, 4] : List Nat).length -
            (2 - 1) * (([0, 1, 2, 3, 4] : List Nat).length / 2)) :=
  ⟨by norm_num, C5_chunk_partition [0, 1, 2, 3, 4] 2 (by norm_num)⟩

/-- One decoded record of the three-way LEFT JOIN result stream: each row
simultaneously carries one user's, one article's and one comment's fields
(sqldb.go 207-214). -/
structure JoinRow where
  user : User
  article : Article
  comment : Comment
  deriving DecidableEq, Repr

/-- The scan state of `FindUsersArticlesComments` (sqldb.go 200-206): three
output collections and three id-to-position indexer maps (modelled as assoc
lists; the Go code only ever queries key presence). -/
structure FlattenAcc where
  users : List User
  userIndexer : List (Int × Nat)
  articles : List Article
  articleIndexer : List (Int × Nat)
  comments : List Comment
  commentIndexer : List (Int × Nat)

/-- One iteration of the scan loop of `FindUsersArticlesComments` (sqldb.go
215-229): for each of the three decoded entities, if its id is not yet in the
corresponding indexer, record its position and append the entity. -/
def flattenStep (acc : FlattenAcc) (r : JoinRow) : FlattenAcc :=
  let acc1 :=
    if (acc.userIndexer.lookup r.user.id).isSome then acc
    else { acc with
      userIndexer := (r.user.id, acc.users.length) :: acc.userIndexer,
      users := acc.users ++ [r.user] }
  let acc2 :=
    if (acc1.articleIndexer.lookup r.article.id).isSome then acc1
    else { acc1 with
      articleIndexer := (r.article.id, acc1.articles.length) :: acc1.articleIndexer,
      articles := acc1.articles ++ [r.article] }
  if (acc2.commentIndexer.lookup r.comment.id).isSome then acc2
  else { acc2 with
    commentIndexer := (r.comment.id, acc2.comments.length) :: acc2.commentIndexer,
    comments := acc2.comments ++ [r.comment] }

/-- `FindUsersArticlesComments` (sqldb.go 185-232) on an already-decoded
result stream. -/
def FindUsersArticlesComments (rows : List JoinRow) :
    List User × List Article × List Comment :=
  let acc := rows.foldl flattenStep ⟨[], [], [], [], [], []⟩
  (acc.users, acc.articles, acc.comments)

/-- Deduplication keeping, for each key, the record decoded at the key's
first occurrence, in first-occurrence order — the spec's description of the
reconstruction. -/
def keepFirstBy {α : Type} (key : α → Int) (l : List α) : List α :=
  l.foldl (fun acc x => if key x ∈ acc.map key then acc else acc ++ [x]) []

/-- The distinct elements of `l` in order of first appearance. -/
def firstOccurrences (l : List Int) : List Int :=
  l.foldl (fun acc x => if x ∈ acc then acc else acc ++ [x]) []

theorem lookup_cons (x a : Int) (b : Nat) (l : List (Int × Nat)) :
    ((a, b) :: l).lookup x = if x = a then some b else l.lookup x := by
  by_cases h : x = a
  · simp [List.lookup, h]
  · have hb : (x == a) = false := by simp [h]
    simp [List.lookup, hb, h]

theorem flattenStep_users (acc : FlattenAcc) (r : JoinRow) :
    (flattenStep acc r).users =
      if (acc.userIndexer.lookup r.user.id).isSome then acc.users
      else acc.users ++ [r.user] := by
  rw [flattenStep]
  split_ifs <;> rfl

theorem flattenStep_userIndexer (acc : FlattenAcc) (r : JoinRow) :
    (flattenStep acc r).userIndexer =
      if (acc.userIndexer.lookup r.user.id).isSome then acc.userIndexer
      else (r.user.id, acc.users.length) :: acc.userIndexer := by
  rw [flattenStep]
  split_ifs <;> rfl

theorem flattenStep_articles (acc : FlattenAcc) (r : JoinRow) :
    (flattenStep acc r).articles =
      if (acc.articleIndexer.lookup r.article.id).isSome then acc.articles
      else acc.articles ++ [r.article] := by
  rw [flattenStep]
  split_ifs <;> rfl

theorem flattenStep_articleIndexer (acc : FlattenAcc) (r : JoinRow) :
    (flattenStep acc r).articleIndexer =
      if (acc.articleIndexer.lookup r.article.id).isSome then acc.articleIndexer
      else (r.article.id, acc.articles.length) :: acc.articleIndexer := by
  rw [flattenStep]
  split_ifs <;> rfl

theorem flattenStep_comments (acc : FlattenAcc) (r : JoinRow) :
    (flattenStep acc r).comments =
      if (acc.commentIndexer.lookup r.comment.id).isSome then acc.comments
      else acc.comments ++ [r.comment] := by
  rw [flattenStep]
  split_ifs <;> rfl

theorem flattenStep_commentIndexer (acc : FlattenAcc) (r : JoinRow) :
    (flattenStep acc r).commentIndexer =
      if (acc.commentIndexer.lookup r.comment.id).isSome then acc.commentIndexer
      else (r.comment.id, acc.comments.length) :: acc.commentIndexer := by
  rw [flattenStep]
  split_ifs <;> rfl

/-- An indexer is faithful to a collection when key presence in the indexer
coincides with id membership in the collection. -/
def IndexerInv (indexer : List (Int × Nat)) (ids : List Int) : Prop :=
  ∀ x : Int, (indexer.lookup x).isSome ↔ x ∈ ids

theorem indexerInv_step (indexer : List (Int × Nat)) (ids : List Int)
    (hInv : IndexerInv indexer ids) (a : Int) (b : Nat) :
    IndexerInv ((a, b) :: indexer) (ids ++ [a]) := by
  intro x
  rw [lookup_cons]
  by_cases hx : x = a
  · simp [hx]
  · rw [if_neg hx]
    simp only [List.mem_append, List.mem_singleton]
    rw [hInv x]
    constructor
    · exact Or.inl
    · rintro (h | h)
      · exact h
      · exact absurd h hx

theorem foldl_flattenStep_users (rows : List JoinRow) :
    ∀ acc : FlattenAcc, IndexerInv acc.userIndexer (acc.users.map User.id) →
      (rows.foldl flattenStep acc).users =
        rows.foldl
          (fun l r => if r.user.id ∈ l.map User.id then l else l ++ [r.user])
          acc.users ∧
      IndexerInv (rows.foldl flattenStep acc).userIndexer
        ((rows.foldl flattenStep acc).users.map User.id) := by
  induction rows with
  | nil => exact fun acc h => ⟨rfl, h⟩
  | cons r rows ih =>
    intro acc hInv
    rw [List.foldl_cons, List.foldl_cons]
    have hu := flattenStep_users acc r
    have hix := flattenStep_userIndexer acc r
    by_cases hc : (acc.userIndexer.lookup r.user.id).isSome
    · rw [if_pos hc] at hu hix
      have hInv2 : IndexerInv (flattenStep acc r).userIndexer
          ((flattenStep acc r).users.map User.id) := by
        rw [hu, hix]
        exact hInv
      obtain ⟨he, hi⟩ := ih (flattenStep acc r) hInv2
      rw [hu] at he
      rw [if_pos ((hInv _).mp hc)]
      exact ⟨he, hi⟩
    · rw [if_neg hc] at hu hix
      have hInv2 : IndexerInv (flattenStep acc r).userIndexer
          ((flattenStep acc r).users.map User.id) := by
        rw [hu, hix]
        simp only [List.map_append, List.map_cons, List.map_nil]
        exact indexerInv_step _ _ hInv _ _
      obtain ⟨he, hi⟩ := ih (flattenStep acc r) hInv2
      rw [hu] at he
      rw [if_neg (fun hm => hc ((hInv _).mpr hm))]
      exact ⟨he, hi⟩

theorem foldl_flattenStep_articles (rows : List JoinRow) :
    ∀ acc : FlattenAcc, IndexerInv acc.articleIndexer (acc.articles.map Article.id) →
      (rows.foldl flattenStep acc).articles =
        rows.foldl
          (fun l r => if r.article.id ∈ l.map Article.id then l else l ++ [r.article])
          acc.articles ∧
      IndexerInv (rows.foldl flattenStep acc).articleIndexer
        ((rows.foldl flattenStep acc).articles.map Article.id) := by
  induction rows with
  | nil => exact fun acc h => ⟨rfl, h⟩
  | cons r rows ih =>
    intro acc hInv
    rw [List.foldl_cons, List.foldl_cons]
    have hu := flattenStep_articles acc r
    have hix := flattenStep_articleIndexer acc r
    by_cases hc : (acc.articleIndexer.lookup r.article.id).isSome
    · rw [if_pos hc] at hu hix
      have hInv2 : IndexerInv (flattenStep acc r).articleIndexer
          ((flattenStep acc r).articles.map Article.id) := by
        rw [hu, hix]
        exact hInv
      obtain ⟨he, hi⟩ := ih (flattenStep acc r) hInv2
      rw [hu] at he
      rw [if_pos ((hInv _).mp hc)]
      exact ⟨he, hi⟩
    · rw [if_neg hc] at hu hix
      have hInv2 : IndexerInv (flattenStep acc r).articleIndexer
          ((flattenStep acc r).articles.map Article.id) := by
        rw [hu, hix]
        simp only [List.map_append, List.map_cons, List.map_nil]
        exact indexerInv_step _ _ hInv _ _
      obtain ⟨he, hi⟩ := ih (flattenStep acc r) hInv2
      rw [hu] at he
      rw [if_neg (fun hm => hc ((hInv _).mpr hm))]
      exact ⟨he, hi⟩

theorem foldl_flattenStep_comments (rows : List JoinRow) :
    ∀ acc : FlattenAcc, IndexerInv acc.commentIndexer (acc.comments.map Comment.id) →
      (rows.foldl flattenStep acc).comments =
        rows.foldl
          (fun l r => if r.comment.id ∈ l.map Comment.id then l else l ++ [r.comment])
          acc.comments ∧
      IndexerInv (rows.foldl flattenStep acc).commentIndexer
        ((rows.foldl flattenStep acc).comments.map Comment.id) := by
  induction rows with
  | nil => exact fun acc h => ⟨rfl, h⟩
  | cons r rows ih =>
    intro acc hInv
    rw [List.foldl_cons, List.foldl_cons]
    have hu := flattenStep_comments acc r
    have hix := flattenStep_commentIndexer acc r
    by_cases hc : (acc.commentIndexer.lookup r.comment.id).isSome
    · rw [if_pos hc] at hu hix
      have hInv2 : IndexerInv (flattenStep acc r).commentIndexer
          ((flattenStep acc r).comments.map Comment.id) := by
        rw [hu, hix]
        exact hInv
      obtain ⟨he, hi⟩ := ih (flattenStep acc r) hInv2
      rw [hu] at he
      rw [if_pos ((hInv _).mp hc)]
      exact ⟨he, hi⟩
    · rw [if_neg hc] at hu hix
      have hInv2 : IndexerInv (flattenStep acc r).commentIndexer
          ((flattenStep acc r).comments.map Comment.id) := by
        rw [hu, hix]
        simp only [List.map_append, List.map_cons, List.map_nil]
        exact indexerInv_step _ _ hInv _ _
      obtain ⟨he, hi⟩ := ih (flattenStep acc r) hInv2
      rw [hu] at he
      rw [if_neg (fun hm => hc ((hInv _).mpr hm))]
      exact ⟨he, hi⟩

theorem findUAC_users (rows : List JoinRow) :
    (FindUsersArticlesComments rows).1 = keepFirstBy User.id (rows.map JoinRow.user) := by
  rw [keepFirstBy, List.foldl_map]
  exact (foldl_flattenStep_users rows ⟨[], [], [], [], [], []⟩
    (by intro x; simp [List.lookup])).1

theorem findUAC_articles (rows : List JoinRow) :
    (FindUsersArticlesComments rows).2.1 =
      keepFirstBy Article.id (rows.map JoinRow.article) := by
  rw [keepFirstBy, List.foldl_map]
  exact (foldl_flattenStep_articles rows ⟨[], [], [], [], [], []⟩
    (by intro x; simp [List.lookup])).1

theorem findUAC_comments (rows : List JoinRow) :
    (FindUsersArticlesComments rows).2.2 =
      keepFirstBy Comment.id (rows.map JoinRow.comment) := by
  rw [keepFirstBy, List.foldl_map]
  exact (foldl_flattenStep_comments rows ⟨[], [], [], [], [], []⟩
    (by intro x; simp [List.lookup])).1

/-- C10: when a record of the join stream carries an identifier already seen
in a collection, that record's field values for the entity are discarded
entirely; each collection keeps exactly the record decoded at the
identifier's first occurrence, even if a later record with the same
identifier carries different field values. -/
theorem C10_first_decode_kept (rows : List JoinRow) :
    (FindUsersArticlesComments rows).1 =
      keepFirstBy User.id (rows.map JoinRow.user) ∧
    (FindUsersArticlesComments rows).2.1 =
      keepFirstBy Article.id (rows.map JoinRow.article) ∧
    (FindUsersArticlesComments rows).2.2 =
      keepFirstBy Comment.id (rows.map JoinRow.comment) :=
  ⟨findUAC_users rows, findUAC_articles rows, findUAC_comments rows⟩

theorem map_key_foldl_keepFirst {α : Type} (key : α → Int) (l : List α) :
    ∀ acc : List α,
      (l.foldl (fun a x => if key x ∈ a.map key then a else a ++ [x]) acc).map key =
        (l.map key).foldl (fun a x => if x ∈ a then a else a ++ [x]) (acc.map key) := by
  induction l with
  | nil => exact fun acc => rfl
  | cons x l ih =>
    intro acc
    rw [List.foldl_cons, List.map_cons, List.foldl_cons]
    by_cases h : key x ∈ acc.map key
    · rw [if_pos h, if_pos h, ih]
    · rw [if_neg h, if_neg h, ih, List.map_append]
      simp only [List.map_cons, List.map_nil]

theorem foldl_firstOcc_nodup (l : List Int) :
    ∀ acc : List Int, acc.Nodup →
      (l.foldl (fun a x => if x ∈ a then a else a ++ [x]) acc).Nodup := by
  induction l with
  | nil => exact fun acc h => h
  | cons x l ih =>
    intro acc hacc
    rw [List.foldl_cons]
    by_cases h : x ∈ acc
    · rw [if_pos h]
      exact ih acc hacc
    · rw [if_neg h]
      refine ih _ ?_
      simp [List.nodup_append, hacc, h]

theorem foldl_firstOcc_mem (l : List Int) :
    ∀ (acc : List Int) (x : Int),
      x ∈ l.foldl (fun a y => if y ∈ a then a else a ++ [y]) acc ↔
        x ∈ acc ∨ x ∈ l := by
  induction l with
  | nil =>
    intro acc x
    simp
  | cons y l ih =>
    intro acc x
    rw [List.foldl_cons]
    by_cases h : y ∈ acc
    · rw [if_pos h, ih]
      simp only [List.mem_cons]
      constructor
      · rintro (hx | hx)
        · exact Or.inl hx
        · exact Or.inr (Or.inr hx)
      · rintro (hx | hx | hx)
        · exact Or.inl hx
        · exact Or.inl (hx ▸ h)
        · exact Or.inr hx
    · rw [if_neg h, ih]
      simp only [List.mem_append, List.mem_singleton, List.mem_cons]
      tauto

/-- C6: the join flattening returns three collections in which each distinct
identifier appears exactly once (the id lists have no duplicates and contain
exactly the ids of the input stream), ordered by the position of the
identifier's first appearance in the input stream (`firstOccurrences` appends
each id at its first appearance, so its order is first-appearance order). -/
theorem C6_flatten_dedup_order (rows : List JoinRow) :
    ((FindUsersArticlesComments rows).1.map User.id =
        firstOccurrences (rows.map fun r => r.user.id) ∧
      ((FindUsersArticlesComments rows).1.map User.id).Nodup ∧
      ∀ x : Int, x ∈ (FindUsersArticlesComments rows).1.map User.id ↔
        x ∈ rows.map fun r => r.user.id) ∧
    ((FindUsersArticlesComments rows).2.1.map Article.id =
        firstOccurrences (rows.map fun r => r.article.id) ∧
      ((FindUsersArticlesComments rows).2.1.map Article.id).Nodup ∧
      ∀ x : Int, x ∈ (FindUsersArticlesComments rows).2.1.map Article.id ↔
        x ∈ rows.map fun r => r.article.id) ∧
    ((FindUsersArticlesComments rows).2.2.map Comment.id =
        firstOccurrences (rows.map fun r => r.comment.id) ∧
      ((FindUsersArticlesComments rows).2.2.map Comment.id).Nodup ∧
      ∀ x : Int, x ∈ (FindUsersArticlesComments rows).2.2.map Comment.id ↔
        x ∈ rows.map fun r => r.comment.id) := by
  have hu : (FindUsersArticlesComments rows).1.map User.id =
      firstOccurrences (rows.map fun r => r.user.id) := by
    rw [findUAC_users, keepFirstBy, map_key_foldl_keepFirst, firstOccurrences,
      List.map_map]
    rfl
  have ha : (FindUsersArticlesComments rows).2.1.map Article.id =
      firstOccurrences (rows.map fun r => r.article.id) := by
    rw [findUAC_articles, keepFirstBy, map_key_foldl_keepFirst, firstOccurrences,
      List.map_map]
    rfl
  have hc : (FindUsersArticlesComments rows).2.2.map Comment.id =
      firstOccurrences (rows.map fun r => r.comment.id) := by
    rw [findUAC_comments, keepFirstBy, map_key_foldl_keepFirst, firstOccurrences,
      List.map_map]
    rfl
  refine ⟨⟨hu, ?_, ?_⟩, ⟨ha, ?_, ?_⟩, ⟨hc, ?_, ?_⟩⟩
  · rw [hu, firstOccurrences]
    exact foldl_firstOcc_nodup _ _ List.nodup_nil
  · intro x
    rw [hu, firstOccurrences, foldl_firstOcc_mem]
    simp
  · rw [ha, firstOccurrences]
    exact foldl_firstOcc_nodup _ _ List.nodup_nil
  · intro x
    rw [ha, firstOccurrences, foldl_firstOcc_mem]
    simp
  · rw [hc, firstOccurrences]
    exact foldl_firstOcc_nodup _ _ List.nodup_nil
  · intro x
    rw [hc, firstOccurrences, foldl_firstOcc_mem]
    simp

/-- Observable per-worker actions of the WAL benchmark loop. -/
inductive WalEvent
  | insert (i : Nat)
  | validate (i : Nat)
  deriving DecidableEq, Repr

/-- The per-worker schedule of `benchWal` (app.go 505-514): for each chunk
index `i` in order, insert chunk `i`, then for `j` in `0,1,2` run
`checkChunk(i-j)` whenever `i-j ≥ 0` (on naturals, `j ≤ i`). -/
def walWorkerEvents (numChunks : Nat) : List WalEvent :=
  (List.range numChunks).flatMap fun i =>
    WalEvent.insert i ::
      ((List.range 3).filterMap fun j =>
        if j ≤ i then some (WalEvent.validate (i - j)) else none)

instance : Inhabited User := ⟨⟨0, 0, "", false⟩⟩

/-- Modelled from the spec and the Go standard library: `time.Time.Year` is
not part of this repository; with timestamps as nanosecond counts in a fixed
model timezone, `Year() == 2023` is the range test between the first instants
of 2023 and 2024. -/
def year2023Start : Int := 1672531200000000000

def year2024Start : Int := 1704067200000000000

def isYear2023 (t : Int) : Bool := year2023Start ≤ t && t < year2024Start

/-- `checkChunk` of `benchWal` (app.go 492-504) applied to the users read
back for the chunk's id range: the row count must equal the chunk length and
the `i`-th returned user must have id `first + i` (ids contiguous ascending
from the chunk's first id), creation year 2023, an email beginning with
"user", and the active flag set. -/
def checkChunk (chunk returned : List User) : Bool :=
  let first := (chunk.getD 0 default).id
  chunk.length == returned.length &&
    (List.range returned.length).all fun i =>
      let u := returned.getD i default
      u.id == first + (i : Int) && isYear2023 u.created &&
        u.email.take 4 == "user" && u.active

/-- The instant 2023-10-01 10:00 in the model timezone, in nanoseconds. -/
def walBase : Int := 1696154400000000000

/-- The WAL benchmark's user generation rule (app.go 456-464): user `i`
(0-based) has id `i+1`, creation time `base + i` seconds, email
`user<i+1>@example.com`, and is active. -/
def genWalUser (i : Nat) : User :=
  { id := (i : Int) + 1
    created := walBase + (i : Int) * 1000000000
    email := "user" ++ toString (i + 1) ++ "@example.com"
    active := true }

/-- C7 counterexample: the claim says validation checks that payload fields
match the generation rule, but `checkChunk` accepts a returned row whose
email differs from the generated one (it only checks the first four
characters), so passing validation does not imply the payload matches the
generation rule. -/
theorem C7_counterexample :
    checkChunk [genWalUser 0] [{ genWalUser 0 with email := "userFAKE" }] = true ∧
    [{ genWalUser 0 with email := "userFAKE" }] ≠ [genWalUser 0] := by
  constructor
  · decide
  · decide

/-- C7 (amended): every worker, after inserting chunk `i` of its 10 chunks,
validates exactly chunks `i, i-1, i-2` clipped at 0; every validated chunk
has already been inserted by that worker; and validation of a chunk checks
that the returned row count equals the chunk length and that the returned
identifiers are contiguous ascending from the chunk's first identifier, with
the payload sanity checks actually performed by the code (creation year 2023,
email beginning with "user", active flag) rather than full equality with the
generation rule. -/
theorem C7_wal_worker_protocol :
    (walWorkerEvents 10 =
      (List.range 10).flatMap fun i =>
        WalEvent.insert i ::
          ((([(i : Int), (i : Int) - 1, (i : Int) - 2].filter fun t => 0 ≤ t).map
            fun t => WalEvent.validate t.toNat))) ∧
    (∀ p ≤ (walWorkerEvents 10).length, ∀ k < 10,
      WalEvent.validate k ∈ (walWorkerEvents 10).take p →
        WalEvent.insert k ∈ (walWorkerEvents 10).take p) ∧
    (∀ chunk returned : List User,
      checkChunk chunk returned = true ↔
        (chunk.length = returned.length ∧
          ∀ i < returned.length,
            (returned.getD i default).id = (chunk.getD 0 default).id + (i : Int) ∧
            isYear2023 (returned.getD i default).created = true ∧
            (returned.getD i default).email.take 4 = "user" ∧
            (returned.getD i default).active = true)) := by
  refine ⟨by decide, by decide, ?_⟩
  intro chunk returned
  rw [checkChunk]
  simp only [Bool.and_eq_true, List.all_eq_true, List.mem_range, beq_iff_eq]
  constructor
  · rintro ⟨hlen, hall⟩
    refine ⟨hlen, fun i hi => ?_⟩
    obtain ⟨⟨⟨h1, h2⟩, h3⟩, h4⟩ := hall i hi
    exact ⟨h1, h2, h3, h4⟩
  · rintro ⟨hlen, hall⟩
    refine ⟨hlen, fun i hi => ?_⟩
    obtain ⟨h1, h2, h3, h4⟩ := hall i hi
    exact ⟨⟨⟨h1, h2⟩, h3⟩, h4⟩

/-- C9: binding a timestamp to its signed 64-bit storage representation and
unbinding the stored value reproduces the timestamp exactly, for every
timestamp within the representable range (the modelled unit is the
nanosecond, for which the unit truncation is the identity). -/
theorem C9_bind_unbind_roundtrip (t : Int) (h1 : -(2 ^ 63) ≤ t) (h2 : t < 2 ^ 63) :
    UnbindTime (BindTime t) = t := by
  rw [UnbindTime, BindTime, wrap64]
  rw [Int.emod_eq_of_lt (by omega) (by omega)]
  omega

/-- Witness for C9 at the concrete timestamp of the WAL benchmark base. -/
theorem C9_bind_unbind_roundtrip_witness :
    -(2 ^ 63) ≤ (1696154400000000000 : Int) ∧
      (1696154400000000000 : Int) < 2 ^ 63 ∧
      UnbindTime (BindTime 1696154400000000000) = 1696154400000000000 :=
  ⟨by norm_num, by norm_num,
    C9_bind_unbind_roundtrip 1696154400000000000 (by norm_num) (by norm_num)⟩

end SqliteBench
